import Mathlib

/-!
Shallow embedding of the `best-of-the-worst` analysis modules
(`clean_data.py`, `compute_statistics.py`, `judge_profiles.py`) and proofs
about them.  Tables are modelled as a list of column names together with a
list of rows; a cell is `null` (pandas NaN), a rational number, or a string.
Rational numbers stand for the floating-point values of the source: every
statistic the source computes on the verified paths is an exact arithmetic
expression, except standard deviations, which the source obtains as the
square root of the variance; we therefore store the variance (the square of
the source's std) and reason about it, which determines the std uniquely.
-/

namespace BW

/-- A cell of a pandas data frame: NaN, a number, or a string. -/
inductive Value where
  | null : Value
  | num : ℚ → Value
  | str : String → Value
deriving DecidableEq, Repr

/-- A data frame: named columns and rows of cells, row-major.
`rows` are aligned positionally with `cols`. -/
structure Table where
  cols : List String
  rows : List (List Value)
deriving DecidableEq, Repr

/-- Outcome of a Python call: a value, Python `None`, or a raised exception. -/
inductive Res (α : Type) where
  | ok : α → Res α
  | noneRes : Res α
  | err : Res α
deriving DecidableEq, Repr

/-! ### String helpers (kernel-reducible versions of `str.lower` / `in`) -/

/-- Lower-cased character list of a string (Python `s.lower()`). -/
def lc (s : String) : List Char :=
  s.data.map Char.toLower

/-- `matchesAt pat l`: `pat` is an initial segment of `l`. -/
def matchesAt : List Char → List Char → Bool
  | [], _ => true
  | _ :: _, [] => false
  | a :: as, b :: bs => a == b && matchesAt as bs

/-- `containsSub pat l`: Python `pat in l` on character lists. -/
def containsSub (pat : List Char) : List Char → Bool
  | [] => matchesAt pat []
  | c :: rest => matchesAt pat (c :: rest) || containsSub pat rest

/-! ### Column classifier (the substring heuristics repeated in the source) -/

/-- Rating-column predicate: `'rating' in col.lower() or 'score' in col.lower()
or '(1-5)' in col or any(word in col.lower() for word in
['aroma', 'flavor', 'sip', 'mouthfeel', 'aftertaste'])`. -/
def isRatingName (c : String) : Bool :=
  containsSub "rating".data (lc c) || containsSub "score".data (lc c) ||
  containsSub "(1-5)".data c.data ||
  (["aroma", "flavor", "sip", "mouthfeel", "aftertaste"].any fun w =>
    containsSub w.data (lc c))

/-- Judge-identifier predicate: `'judge' in col.lower() or 'reviewer' in col.lower()`. -/
def isJudgeName (c : String) : Bool :=
  containsSub "judge".data (lc c) || containsSub "reviewer".data (lc c)

/-- Beer-identifier predicate: `'beer' in col.lower() or 'name' in col.lower()`. -/
def isBeerName (c : String) : Bool :=
  containsSub "beer".data (lc c) || containsSub "name".data (lc c)

/-- Identifier predicate of `clean_ratings`: judge, reviewer, beer or name. -/
def isIdName (c : String) : Bool :=
  isJudgeName c || isBeerName c

/-- Essential column of `clean_ratings`: rating or identifier. -/
def isEssentialName (c : String) : Bool :=
  isRatingName c || isIdName c

/-! ### Numeric coercion (`pd.to_numeric(..., errors='coerce')`) -/

/-- Value of a list of decimal digits, `none` on a non-digit or empty list. -/
def digitsVal : List Char → Option Nat
  | [] => none
  | [c] => if c.isDigit then some (c.toNat - '0'.toNat) else none
  | c :: rest =>
    if c.isDigit then
      (digitsVal rest).map (fun r => (c.toNat - '0'.toNat) * 10 ^ rest.length + r)
    else none

/-- Parse an optionally signed decimal literal (`"12"`, `"-3.5"`), `none`
otherwise.  Models `pd.to_numeric` on the string cells that occur here. -/
def parseNum (s : String) : Option ℚ :=
  let core : List Char → Option ℚ := fun l =>
    match l.splitOn '.' with
    | [w] => (digitsVal w).map (fun n => (n : ℚ))
    | [w, f] =>
      match digitsVal w, digitsVal f with
      | some n, some m => some ((n : ℚ) + (m : ℚ) / (10 ^ f.length : ℚ))
      | _, _ => none
    | _ => none
  match s.data with
  | '-' :: rest => (core rest).map Neg.neg
  | l => core l

/-- `pd.to_numeric(v, errors='coerce')` on one cell: numbers pass through,
NaN stays NaN, strings parse or become NaN. -/
def toNumericVal : Value → Value
  | Value.null => Value.null
  | Value.num q => Value.num q
  | Value.str s =>
    match parseNum s with
    | some q => Value.num q
    | none => Value.null

/-- Numeric reading of a cell: `some q` exactly on numeric cells. -/
def toNumQ : Value → Option ℚ
  | Value.num q => some q
  | _ => none

/-! ### Cell access -/

/-- Cell of row `r` in column `c` (`row[c]`); `null` when absent. -/
def cellOf (cols : List String) (r : List Value) (c : String) : Value :=
  match (cols.zip r).find? (fun p => p.1 == c) with
  | some p => p.2
  | none => Value.null

/-- The values of column `c`, top to bottom (`df[c]`). -/
def colValues (t : Table) (c : String) : List Value :=
  t.rows.map (fun r => cellOf t.cols r c)

/-- Pandas scalar equality used by boolean masks: NaN matches nothing
(including NaN); numbers and strings match by equality. -/
def vmatch : Value → Value → Bool
  | Value.num a, Value.num b => a == b
  | Value.str a, Value.str b => a == b
  | _, _ => false

/-- First occurrences of each value, in encounter order
(`pd.Series.unique`). -/
def dedupFirst : List Value → List Value
  | [] => []
  | v :: vs => v :: (dedupFirst vs).filter (fun w => w ≠ v)

/-- Rows of `t` whose cell in column `c` matches `v` (`df[df[c] == v]`). -/
def rowsWhere (t : Table) (c : String) (v : Value) : List (List Value) :=
  t.rows.filter (fun r => vmatch (cellOf t.cols r c) v)

/-! ### `clean_data.clean_ratings` -/

/-- `dropna(subset=essential_columns)` keeps a row iff no essential cell
is null. -/
def keepRow (cols : List String) (r : List Value) : Bool :=
  (cols.zip r).all (fun p => !(isEssentialName p.1 && p.2 == Value.null))

/-- Numeric coercion of every rating column of a row. -/
def coerceRow (cols : List String) (r : List Value) : List Value :=
  (cols.zip r).map (fun p => if isRatingName p.1 then toNumericVal p.2 else p.2)

/-- `clean_ratings`: drop rows with a null in an essential column, then
coerce the rating columns to numeric.  Returns the cleaned table together
with the reported number of dropped rows. -/
def clean_ratings (t : Table) : Table × Nat :=
  let kept := t.rows.filter (keepRow t.cols)
  (⟨t.cols, kept.map (coerceRow t.cols)⟩, t.rows.length - kept.length)

/-! ### Numeric list statistics (`np.mean`, `np.std`, pandas aggregates) -/

/-- Arithmetic mean (`np.mean`); the source only uses it on data whose
emptiness has been ruled out or whose NaN result is modelled by `Option`. -/
def listMean (xs : List ℚ) : ℚ :=
  xs.sum / xs.length

/-- Population variance, the square of `np.std` (ddof = 0). -/
def listVarPop (xs : List ℚ) : ℚ :=
  ((xs.map (fun x => (x - listMean xs) ^ 2)).sum) / xs.length

/-- Sample variance, the square of pandas `Series.std` (ddof = 1). -/
def listVarSample (xs : List ℚ) : ℚ :=
  ((xs.map (fun x => (x - listMean xs) ^ 2)).sum) / ((xs.length : ℚ) - 1)

/-- Maximum of a list (`np.max` / `max`), `0` only on the empty list the
source would crash on. -/
def listMax : List ℚ → ℚ
  | [] => 0
  | x :: rest => rest.foldl max x

/-- Minimum of a list (`np.min` / `min`). -/
def listMin : List ℚ → ℚ
  | [] => 0
  | x :: rest => rest.foldl min x

/-- Median with even-length interpolation (pandas `Series.median`). -/
def listMedian (xs : List ℚ) : ℚ :=
  let s := xs.insertionSort (· ≤ ·)
  if s.length % 2 = 1 then s.getD (s.length / 2) 0
  else (s.getD (s.length / 2 - 1) 0 + s.getD (s.length / 2) 0) / 2

/-! ### `compute_statistics.compute_basic_statistics` -/

/-- The per-column summary of `compute_basic_statistics`.  `none` stands
for pandas' NaN on empty data (std: fewer than 2 values).  `varSample` is
the square of the source's `std`. -/
structure ColStats where
  mean : Option ℚ
  median : Option ℚ
  varSample : Option ℚ
  minV : Option ℚ
  maxV : Option ℚ
  count : Nat
deriving DecidableEq, Repr

/-- Pandas series aggregation: statistics ignore nulls; `count` counts the
non-null cells.  (On a column holding a non-numeric, non-null cell the
pandas mean would raise; the verified statements restrict rating columns to
numeric-or-null cells, the dtype the cleaning pipeline produces.) -/
def seriesStats (cells : List Value) : ColStats :=
  let xs := cells.filterMap toNumQ
  { mean := if xs.isEmpty then none else some (listMean xs)
    median := if xs.isEmpty then none else some (listMedian xs)
    varSample := if xs.length < 2 then none else some (listVarSample xs)
    minV := if xs.isEmpty then none else some (listMin xs)
    maxV := if xs.isEmpty then none else some (listMax xs)
    count := (cells.filter (fun v => v ≠ Value.null)).length }

/-- `compute_basic_statistics`: summary of every rating column, `None`
when no rating column exists. -/
def compute_basic_statistics (t : Table) : Option (List (String × ColStats)) :=
  if (t.cols.filter isRatingName).isEmpty then none
  else some ((t.cols.filter isRatingName).map (fun c => (c, seriesStats (colValues t c))))

/-! ### `compute_statistics.compute_beer_averages` / `find_best_worst_beers` -/

/-- One cell of the groupby aggregation `['mean', 'std', 'count']`;
`varSample` is the square of the `std` entry. -/
structure AggCell where
  mean : Option ℚ
  varSample : Option ℚ
  count : Nat
deriving DecidableEq, Repr

/-- Groupby aggregation of one rating column restricted to one group. -/
def aggCellOf (cells : List Value) : AggCell :=
  let xs := cells.filterMap toNumQ
  { mean := if xs.isEmpty then none else some (listMean xs)
    varSample := if xs.length < 2 then none else some (listVarSample xs)
    count := xs.length }

/-- `compute_beer_averages`: group on the FIRST column matching the beer
keywords (the loop breaks at the first match) and aggregate every rating
column per beer.  `df.groupby` enumerates groups in sorted key order; we
enumerate them in first-occurrence order, which permutes the returned
mapping but changes no per-group statistic, and no verified property
depends on group order. -/
def compute_beer_averages (t : Table) :
    Option (List (Value × List (String × AggCell))) :=
  match t.cols.find? isBeerName with
  | none => none
  | some bc =>
    let rcs := t.cols.filter isRatingName
    some ((dedupFirst (colValues t bc)).map (fun b =>
      (b, rcs.map (fun c =>
        (c, aggCellOf ((rowsWhere t bc b).map (fun r => cellOf t.cols r c)))))))

/-- A beer's overall scalar: row-wise mean over the per-column mean cells,
skipping NaN columns (pandas `mean(axis=1)`); NaN (`none`) when every
column mean is NaN. -/
def overallScore (aggs : List (String × AggCell)) : Option ℚ :=
  let ms := aggs.filterMap (fun p => p.2.mean)
  if ms.isEmpty then none else some (listMean ms)

/-- `Series.idxmax`: the first entry attaining the maximum. -/
def argmaxFirst (p : Value × ℚ) (ps : List (Value × ℚ)) : Value × ℚ :=
  ps.foldl (fun acc q => if acc.2 < q.2 then q else acc) p

/-- `Series.idxmin`: the first entry attaining the minimum. -/
def argminFirst (p : Value × ℚ) (ps : List (Value × ℚ)) : Value × ℚ :=
  ps.foldl (fun acc q => if q.2 < acc.2 then q else acc) p

/-- Result record of `find_best_worst_beers`. -/
structure BestWorst where
  best : Value × ℚ
  worst : Value × ℚ
  ranking : List (Value × ℚ)
deriving DecidableEq, Repr

/-- `find_best_worst_beers`.  When every beer's overall scalar is NaN the
source raises (`idxmax` on an all-NA series raises a `ValueError`, or on
older pandas returns NaN and the subsequent indexing raises a `KeyError`):
modelled by `Res.err`. -/
def find_best_worst_beers (t : Table) : Res BestWorst :=
  match compute_beer_averages t with
  | none => Res.noneRes
  | some groups =>
    match groups.filterMap (fun g => (overallScore g.2).map (fun q => (g.1, q))) with
    | [] => Res.err
    | p :: ps =>
      Res.ok { best := argmaxFirst p ps
               worst := argminFirst p ps
               ranking := (p :: ps).insertionSort (fun a b => b.2 ≤ a.2) }

/-! ### `compute_statistics.compute_judge_statistics` -/

/-- Per-judge statistics; `varPop` is the square of the source's
`std_rating` (`np.std`, population). -/
structure JudgeStats where
  mean_rating : ℚ
  varPop : ℚ
  rating_range : ℚ
  num_ratings : Nat
deriving DecidableEq, Repr

/-- The rating-column cells of a row, in column order
(`row[rating_columns]`). -/
def ratingCellsRow (cols : List String) (r : List Value) : List Value :=
  (cols.zip r).filterMap (fun p => if isRatingName p.1 then some p.2 else none)

/-- A judge's flattened non-NaN rating values, row-major
(`judge_data[rating_columns].values.flatten()` with NaN removed). -/
def judgeFlatRatings (t : Table) (jc : String) (j : Value) : List ℚ :=
  (((rowsWhere t jc j).map (ratingCellsRow t.cols)).flatten).filterMap toNumQ

/-- Sequence a list of options (`none` as soon as one entry is `none`). -/
def allSome {α : Type} : List (Option α) → Option (List α)
  | [] => some []
  | none :: _ => none
  | some a :: os => (allSome os).map (fun l => a :: l)

/-- Statistics of one judge's flattened ratings.  On an empty list
`np.max` raises a `ValueError` (`np.mean` merely warns and yields NaN, but
the dict construction reaches `np.max`): modelled by `none`. -/
def judgeStatsOf (xs : List ℚ) : Option JudgeStats :=
  if xs.isEmpty then none
  else some { mean_rating := listMean xs
              varPop := listVarPop xs
              rating_range := listMax xs - listMin xs
              num_ratings := xs.length }

/-- `compute_judge_statistics`: keyed on the FIRST column matching the
judge keywords; `Res.err` when some judge's rating list is empty (the
source raises there). -/
def compute_judge_statistics (t : Table) : Res (List (Value × JudgeStats)) :=
  match t.cols.find? isJudgeName with
  | none => Res.noneRes
  | some jc =>
    match allSome ((dedupFirst (colValues t jc)).map (fun j =>
      (judgeStatsOf (judgeFlatRatings t jc j)).map (fun s => (j, s)))) with
    | some l => Res.ok l
    | none => Res.err

/-! ### `judge_profiles.analyze_judge_consistency` -/

/-- Per-judge consistency record; `varPop` is the square of the source's
`std_dev` (`np.std`, population). -/
structure ConsStats where
  varPop : ℚ
  num_ratings : Nat
  avg_rating : ℚ
  rating_range : ℚ
deriving DecidableEq, Repr

/-- The non-null rating values of one row in column order (the
`if pd.notna(row[col])` loop; on the numeric-or-null rating cells the
cleaning pipeline produces, "not NaN" means "a number"). -/
def consRowRatings (cols : List String) (r : List Value) : List ℚ :=
  (cols.zip r).filterMap (fun p => if isRatingName p.1 then toNumQ p.2 else none)

/-- One judge's `all_ratings` list of the consistency loop: row-major over
the judge's rows, the non-null rating cells in column order. -/
def judgeConsRatings (t : Table) (jc : String) (j : Value) : List ℚ :=
  ((rowsWhere t jc j).map (consRowRatings t.cols)).flatten

/-- One judge's consistency entry, present only when the judge has more
than one rating value. -/
def consEntry (t : Table) (jc : String) (j : Value) : Option (Value × ConsStats) :=
  if 1 < (judgeConsRatings t jc j).length then
    some (j, { varPop := listVarPop (judgeConsRatings t jc j)
               num_ratings := (judgeConsRatings t jc j).length
               avg_rating := listMean (judgeConsRatings t jc j)
               rating_range := listMax (judgeConsRatings t jc j) -
                 listMin (judgeConsRatings t jc j) })
  else none

/-- `analyze_judge_consistency`: per judge the flattened non-null ratings,
kept only when more than one value exists. -/
def analyze_judge_consistency (t : Table) : Option (List (Value × ConsStats)) :=
  match t.cols.find? isJudgeName with
  | none => none
  | some jc =>
    if (t.cols.filter isRatingName).isEmpty then none
    else some ((dedupFirst (colValues t jc)).filterMap (consEntry t jc))

/-! ### `judge_profiles.identify_harsh_lenient_judges` -/

/-- Result record of `identify_harsh_lenient_judges`. -/
structure HarshLenient where
  overall_average : ℚ
  harsh_judges : List (Value × ℚ)
  lenient_judges : List (Value × ℚ)
deriving DecidableEq, Repr

/-- `identify_harsh_lenient_judges`: the unweighted mean of the per-judge
means is the baseline; harsh judges sort ascending by mean, lenient ones
descending.  A raise inside `compute_judge_statistics` propagates. -/
def identify_harsh_lenient_judges (t : Table) : Res HarshLenient :=
  match compute_judge_statistics t with
  | Res.noneRes => Res.noneRes
  | Res.err => Res.err
  | Res.ok stats =>
    let overall := listMean (stats.map (fun p => p.2.mean_rating))
    Res.ok
      { overall_average := overall
        harsh_judges :=
          (stats.filterMap (fun p =>
            if p.2.mean_rating < overall - 1/2 then some (p.1, p.2.mean_rating)
            else none)).insertionSort (fun a b => a.2 ≤ b.2)
        lenient_judges :=
          (stats.filterMap (fun p =>
            if overall + 1/2 < p.2.mean_rating then some (p.1, p.2.mean_rating)
            else none)).insertionSort (fun a b => b.2 ≤ a.2) }

/-! ### `judge_profiles.analyze_judge_preferences` -/

/-- The column-selection loop shared by `analyze_judge_preferences` and
`find_judge_agreements_disagreements`: `for col: if judge-keyword:
judge_col = col elif beer-keyword: beer_col = col`.  There is no `break`,
so the LAST match overwrites earlier ones, and a judge-matching column is
never considered for the beer role. -/
def lastMatchCols (cols : List String) : Option String × Option String :=
  cols.foldl (fun acc c =>
    if isJudgeName c then (some c, acc.2)
    else if isBeerName c then (acc.1, some c)
    else acc) (none, none)

/-- Insert-or-overwrite on an association list, preserving the insertion
order of the first occurrence (Python dict assignment). -/
def upsert (l : List (Value × ℚ)) (k : Value) (q : ℚ) : List (Value × ℚ) :=
  if l.any (fun p => p.1 == k) then
    l.map (fun p => if p.1 == k then (k, q) else p)
  else l ++ [(k, q)]

/-- Per-judge preference record; favorite and least favorite mirror
`sorted_beers[0] if sorted_beers else None`. -/
structure JudgePrefs where
  favorite_beer : Option (Value × ℚ)
  least_favorite_beer : Option (Value × ℚ)
  all_ratings : List (Value × ℚ)
deriving DecidableEq, Repr

/-- One judge's beer → mean-rating dict, built row by row (a later row for
the same beer overwrites the earlier mean). -/
def judgeBeerRatings (t : Table) (jc bc : String) (j : Value) : List (Value × ℚ) :=
  (rowsWhere t jc j).foldl (fun acc r =>
    let ratings := consRowRatings t.cols r
    if ratings.isEmpty then acc
    else upsert acc (cellOf t.cols r bc) (listMean ratings)) []

/-- `analyze_judge_preferences`: keyed on the columns of `lastMatchCols`;
judges with an empty beer dict are omitted. -/
def analyze_judge_preferences (t : Table) : Option (List (Value × JudgePrefs)) :=
  match lastMatchCols t.cols with
  | (some jc, some bc) =>
    if (t.cols.filter isRatingName).isEmpty then none
    else some ((dedupFirst (colValues t jc)).filterMap (fun j =>
      let br := judgeBeerRatings t jc bc j
      if br.isEmpty then none
      else
        let sorted := br.insertionSort (fun a b => b.2 ≤ a.2)
        some (j, { favorite_beer := sorted.head?
                   least_favorite_beer := sorted.getLast?
                   all_ratings := sorted })))
  | _ => none

/-! ### `judge_profiles.find_judge_agreements_disagreements` -/

/-- The unordered pairs `(judges[i], judges[j])`, `i < j`, in iteration
order. -/
def allPairs {α : Type} : List α → List (α × α)
  | [] => []
  | x :: xs => (xs.map (fun y => (x, y))) ++ allPairs xs

/-- The beers two judges both rated (`set(j1[beer]) & set(j2[beer])`).
Python iterates the set in arbitrary order; every statistic computed from
it is order-invariant, so first-occurrence order is used here. -/
def commonBeers (t : Table) (jc bc : String) (j1 j2 : Value) : List Value :=
  (dedupFirst ((rowsWhere t jc j1).map (fun r => cellOf t.cols r bc))).filter
    (fun b => ((rowsWhere t jc j2).map (fun r => cellOf t.cols r bc)).contains b)

/-- One judge's flattened non-NaN ratings for one beer. -/
def judgeBeerFlat (t : Table) (jc bc : String) (j b : Value) : List ℚ :=
  ((((rowsWhere t jc j).filter (fun r => vmatch (cellOf t.cols r bc) b)).map
    (ratingCellsRow t.cols)).flatten).filterMap toNumQ

/-- The per-common-beer pairs `(mean of judge1's ratings, mean of judge2's
ratings)`; a beer where either judge has no non-null value contributes no
pair. -/
def pairPoints (t : Table) (jc bc : String) (j1 j2 : Value) : List (ℚ × ℚ) :=
  (commonBeers t jc bc j1 j2).filterMap (fun b =>
    let xs := judgeBeerFlat t jc bc j1 b
    let ys := judgeBeerFlat t jc bc j2 b
    if xs.isEmpty || ys.isEmpty then none
    else some (listMean xs, listMean ys))

/-- Centered second moments of a list of points.  `np.corrcoef` returns
`sxy / sqrt(sxx * syy)` (the `1/(n-1)` factors of the covariance matrix
cancel), which is NaN when `sxx * syy = 0`. -/
def sxyOf (ps : List (ℚ × ℚ)) : ℚ :=
  (ps.map (fun p => (p.1 - listMean (ps.map Prod.fst)) *
    (p.2 - listMean (ps.map Prod.snd)))).sum

/-- Centered sum of squares of the first coordinates. -/
def sxxOf (ps : List (ℚ × ℚ)) : ℚ :=
  (ps.map (fun p => (p.1 - listMean (ps.map Prod.fst)) ^ 2)).sum

/-- Centered sum of squares of the second coordinates. -/
def syyOf (ps : List (ℚ × ℚ)) : ℚ :=
  (ps.map (fun p => (p.2 - listMean (ps.map Prod.snd)) ^ 2)).sum

/-- `correlation > c` for a threshold `c > 0`, expressed without square
roots: `sxy / sqrt(sxx*syy) > c` iff the denominator is positive, `sxy`
is positive and `sxy^2 > c^2 * sxx * syy`.  A NaN correlation (zero
denominator) compares `False`, as in Python. -/
def corrGt (sxy sxx syy c : ℚ) : Bool :=
  decide (0 < sxx * syy) && decide (0 < sxy) && decide (c ^ 2 * (sxx * syy) < sxy ^ 2)

/-- One entry of the agreements dict.  The source stores the correlation
`sxy / sqrt(sxx * syy)` itself; the three centered moments recorded here
determine it (NaN exactly when `sxx * syy = 0`). -/
structure PairAgg where
  judge1 : Value
  judge2 : Value
  sxy : ℚ
  sxx : ℚ
  syy : ℚ
  npoints : Nat
  common_count : Nat
  agreement_level : String
deriving DecidableEq, Repr

/-- `find_judge_agreements_disagreements`: for each judge pair with more
than one per-common-beer mean pair, the correlation data and the discrete
agreement level (`High` above 0.7, `Medium` above 0.3, else `Low` —
including NaN). -/
def find_judge_agreements_disagreements (t : Table) : Option (List PairAgg) :=
  match lastMatchCols t.cols with
  | (some jc, some bc) =>
    if (t.cols.filter isRatingName).isEmpty then none
    else some ((allPairs (dedupFirst (colValues t jc))).filterMap (fun pr =>
      let pts := pairPoints t jc bc pr.1 pr.2
      if 1 < pts.length then
        some { judge1 := pr.1
               judge2 := pr.2
               sxy := sxyOf pts
               sxx := sxxOf pts
               syy := syyOf pts
               npoints := pts.length
               common_count := (commonBeers t jc bc pr.1 pr.2).length
               agreement_level :=
                 if corrGt (sxyOf pts) (sxxOf pts) (syyOf pts) (7/10) then "High"
                 else if corrGt (sxyOf pts) (sxxOf pts) (syyOf pts) (3/10) then "Medium"
                 else "Low" }
      else none))
  | _ => none

/-! ### `judge_profiles.generate_judge_profiles` -/

/-- One judge's profile record. -/
structure Profile where
  consistency : ConsStats
  avg_rating : ℚ
  rating_style : String
  prefs : Option JudgePrefs
deriving DecidableEq, Repr

/-- `generate_judge_profiles`: one profile per judge present in the
consistency map.  A raise inside `identify_harsh_lenient_judges`
propagates; a `None` harsh/lenient result combined with a non-empty
consistency map would raise at `None.get` (this combination requires a
judge column, where `identify` cannot return `None`). -/
def generate_judge_profiles (t : Table) : Res (List (Value × Profile)) :=
  match identify_harsh_lenient_judges t, analyze_judge_consistency t with
  | Res.err, _ => Res.err
  | _, none => Res.ok []
  | _, some [] => Res.ok []
  | Res.ok h, some cs =>
    Res.ok (cs.map (fun p =>
      (p.1,
        { consistency := p.2
          avg_rating := p.2.avg_rating
          rating_style :=
            if h.harsh_judges.any (fun q => q.1 == p.1) then "Harsh"
            else if h.lenient_judges.any (fun q => q.1 == p.1) then "Lenient"
            else "Moderate"
          prefs := (analyze_judge_preferences t).bind (fun l =>
            (l.find? (fun q => q.1 == p.1)).map Prod.snd) })))
  | Res.noneRes, some (_ :: _) => Res.err

/-! ### Helper lemmas -/

theorem sum_map_eq_finSum {α : Type} (l : List α) (f : α → ℚ) :
    (l.map f).sum = ∑ i : Fin l.length, f (l.get i) := by
  induction l with
  | nil => simp
  | cons a l ih =>
    rw [List.map_cons, List.sum_cons, ih]
    show f a + ∑ i : Fin l.length, f (l.get i) =
      ∑ i : Fin (l.length + 1), f ((a :: l).get i)
    rw [Fin.sum_univ_succ]
    rfl

/-- Cauchy–Schwarz for lists of rationals. -/
theorem list_cauchy_schwarz {α : Type} (l : List α) (f g : α → ℚ) :
    ((l.map (fun p => f p * g p)).sum) ^ 2 ≤
      ((l.map (fun p => f p ^ 2)).sum) * ((l.map (fun p => g p ^ 2)).sum) := by
  rw [sum_map_eq_finSum, sum_map_eq_finSum, sum_map_eq_finSum]
  exact Finset.sum_mul_sq_le_sq_mul_sq Finset.univ
    (fun i => f (l.get i)) (fun i => g (l.get i))

/-- The correlation numerator is dominated: `sxy² ≤ sxx · syy`. -/
theorem sxy_sq_le (ps : List (ℚ × ℚ)) :
    (sxyOf ps) ^ 2 ≤ sxxOf ps * syyOf ps :=
  list_cauchy_schwarz ps
    (fun p => p.1 - listMean (ps.map Prod.fst))
    (fun p => p.2 - listMean (ps.map Prod.snd))

theorem mem_dedupFirst {x : Value} : ∀ {l : List Value}, x ∈ dedupFirst l ↔ x ∈ l
  | [] => Iff.rfl
  | v :: vs => by
    show x ∈ v :: (dedupFirst vs).filter (fun w => w ≠ v) ↔ x ∈ v :: vs
    simp only [List.mem_cons, List.mem_filter]
    constructor
    · rintro (h | ⟨h, _⟩)
      · exact Or.inl h
      · exact Or.inr (mem_dedupFirst.mp h)
    · intro h
      by_cases hx : x = v
      · exact Or.inl hx
      · rcases h with h | h
        · exact absurd h hx
        · exact Or.inr ⟨mem_dedupFirst.mpr h, by simpa using hx⟩

theorem nodup_dedupFirst : ∀ (l : List Value), (dedupFirst l).Nodup
  | [] => List.nodup_nil
  | v :: vs => by
    show (v :: (dedupFirst vs).filter (fun w => w ≠ v)).Nodup
    refine List.nodup_cons.mpr ⟨fun h => ?_, (nodup_dedupFirst vs).filter _⟩
    have := (List.mem_filter.mp h).2
    simp at this

theorem vmatch_eq {a b : Value} (h : vmatch a b = true) : a = b := by
  cases a <;> cases b <;> simp_all [vmatch]

theorem argmaxFirst_spec (p : Value × ℚ) (ps : List (Value × ℚ)) :
    argmaxFirst p ps ∈ p :: ps ∧ ∀ q ∈ p :: ps, q.2 ≤ (argmaxFirst p ps).2 := by
  induction ps generalizing p with
  | nil => simp [argmaxFirst]
  | cons a as ih =>
    by_cases hpa : p.2 < a.2
    · have hstep : argmaxFirst p (a :: as) = argmaxFirst a as := by
        simp [argmaxFirst, List.foldl_cons, hpa]
      obtain ⟨hmem, hle⟩ := ih a
      refine ⟨?_, ?_⟩
      · rw [hstep]; exact List.mem_cons_of_mem _ hmem
      · intro q hq
        rw [hstep]
        rcases List.mem_cons.mp hq with h | h
        · rw [h]; exact le_trans (le_of_lt hpa) (hle a (List.mem_cons_self _ _))
        · exact hle q h
    · have hstep : argmaxFirst p (a :: as) = argmaxFirst p as := by
        simp [argmaxFirst, List.foldl_cons, hpa]
      obtain ⟨hmem, hle⟩ := ih p
      refine ⟨?_, ?_⟩
      · rw [hstep]
        rcases List.mem_cons.mp hmem with h | h
        · rw [h]; exact List.mem_cons_self _ _
        · exact List.mem_cons_of_mem _ (List.mem_cons_of_mem _ h)
      · intro q hq
        rw [hstep]
        rcases List.mem_cons.mp hq with h | h
        · rw [h]; exact hle p (List.mem_cons_self _ _)
        · rcases List.mem_cons.mp h with h | h
          · rw [h]
            exact le_trans (le_of_not_lt hpa) (hle p (List.mem_cons_self _ _))
          · exact hle q (List.mem_cons_of_mem _ h)

theorem argminFirst_spec (p : Value × ℚ) (ps : List (Value × ℚ)) :
    argminFirst p ps ∈ p :: ps ∧ ∀ q ∈ p :: ps, (argminFirst p ps).2 ≤ q.2 := by
  induction ps generalizing p with
  | nil => simp [argminFirst]
  | cons a as ih =>
    by_cases hpa : a.2 < p.2
    · have hstep : argminFirst p (a :: as) = argminFirst a as := by
        simp [argminFirst, List.foldl_cons, hpa]
      obtain ⟨hmem, hle⟩ := ih a
      refine ⟨?_, ?_⟩
      · rw [hstep]; exact List.mem_cons_of_mem _ hmem
      · intro q hq
        rw [hstep]
        rcases List.mem_cons.mp hq with h | h
        · rw [h]; exact le_trans (hle a (List.mem_cons_self _ _)) (le_of_lt hpa)
        · exact hle q h
    · have hstep : argminFirst p (a :: as) = argminFirst p as := by
        simp [argminFirst, List.foldl_cons, hpa]
      obtain ⟨hmem, hle⟩ := ih p
      refine ⟨?_, ?_⟩
      · rw [hstep]
        rcases List.mem_cons.mp hmem with h | h
        · rw [h]; exact List.mem_cons_self _ _
        · exact List.mem_cons_of_mem _ (List.mem_cons_of_mem _ h)
      · intro q hq
        rw [hstep]
        rcases List.mem_cons.mp hq with h | h
        · rw [h]; exact hle p (List.mem_cons_self _ _)
        · rcases List.mem_cons.mp h with h | h
          · rw [h]
            exact le_trans (hle p (List.mem_cons_self _ _)) (le_of_not_lt hpa)
          · exact hle q (List.mem_cons_of_mem _ h)

theorem allSome_forall₂ {α : Type} :
    ∀ {os : List (Option α)} {r : List α}, allSome os = some r →
      List.Forall₂ (fun o a => o = some a) os r
  | [], r, h => by
    simp only [allSome] at h
    rw [← Option.some_inj.mp h]
    exact List.Forall₂.nil
  | none :: os, r, h => by simp [allSome] at h
  | some a :: os, r, h => by
    simp only [allSome, Option.map_eq_some'] at h
    obtain ⟨l, hl, hr⟩ := h
    rw [← hr]
    exact List.Forall₂.cons rfl (allSome_forall₂ hl)

theorem forall₂_mem_right {α β : Type} {R : α → β → Prop} :
    ∀ {l : List α} {r : List β}, List.Forall₂ R l r → ∀ b ∈ r, ∃ a ∈ l, R a b := by
  intro l r h
  induction h with
  | nil => intro b hb; simp at hb
  | cons hab _ ih =>
    intro b hb
    rcases List.mem_cons.mp hb with h | h
    · exact ⟨_, List.mem_cons_self _ _, h ▸ hab⟩
    · obtain ⟨a, ha, hr⟩ := ih b h
      exact ⟨a, List.mem_cons_of_mem _ ha, hr⟩

theorem forall₂_map_fst {α : Type} {f : Value → Option α} :
    ∀ {js : List Value} {r : List (Value × α)},
      List.Forall₂ (fun j p => (f j).map (fun s => (j, s)) = some p) js r →
        r.map Prod.fst = js := by
  intro js r h
  induction h with
  | nil => rfl
  | cons hab _ ih =>
    rename_i a b _ _
    obtain ⟨s, _, hb⟩ := Option.map_eq_some'.mp hab
    simp [← hb, ih]

/-- In a list whose keys are pairwise distinct, entries with equal keys
are equal. -/
theorem nodup_keys_entry_eq {α : Type} {l : List (Value × α)}
    (h : (l.map Prod.fst).Nodup) {a b : Value × α}
    (ha : a ∈ l) (hb : b ∈ l) (hab : a.1 = b.1) : a = b := by
  induction l with
  | nil => simp at ha
  | cons x xs ih =>
    simp only [List.map_cons, List.nodup_cons] at h
    rcases List.mem_cons.mp ha with ha' | ha' <;>
      rcases List.mem_cons.mp hb with hb' | hb'
    · rw [ha', hb']
    · exfalso
      apply h.1
      rw [ha'] at hab
      rw [hab]
      exact List.mem_map_of_mem Prod.fst hb'
    · exfalso
      apply h.1
      rw [hb'] at hab
      rw [← hab]
      exact List.mem_map_of_mem Prod.fst ha'
    · exact ih h.2 ha' hb'

/-- The per-row rating extraction of the consistency loop agrees with
"rating cells, then numeric filter" of `compute_judge_statistics`. -/
theorem consRow_eq_ratingCells (cols : List String) (r : List Value) :
    consRowRatings cols r = (ratingCellsRow cols r).filterMap toNumQ := by
  unfold consRowRatings ratingCellsRow
  rw [List.filterMap_filterMap]
  congr 1
  funext p
  by_cases h : isRatingName p.1 <;> simp [h]

/-- The flattened rating lists of the two judge aggregations coincide. -/
theorem consFlat_eq_judgeFlat (t : Table) (jc : String) (j : Value) :
    judgeConsRatings t jc j = judgeFlatRatings t jc j := by
  unfold judgeConsRatings judgeFlatRatings
  rw [List.filterMap_flatten, List.map_map]
  congr 1
  apply List.map_congr_left
  intro r _
  exact consRow_eq_ratingCells t.cols r

theorem getLast?_cons_or {α : Type} (c : α) (l : List α) :
    (c :: l).getLast? = l.getLast?.or (some c) := by
  cases l with
  | nil => rfl
  | cons x xs =>
    rw [List.getLast?_cons_cons]
    obtain ⟨v, hv⟩ := Option.isSome_iff_exists.mp
      (List.getLast?_isSome.mpr (List.cons_ne_nil x xs))
    rw [hv]
    rfl

/-- The selection loop with an arbitrary starting accumulator returns the
last match of each role (falling back to the accumulator). -/
theorem foldl_lastMatch : ∀ (cols : List String) (a0 b0 : Option String),
    cols.foldl (fun acc c =>
      if isJudgeName c then (some c, acc.2)
      else if isBeerName c then (acc.1, some c)
      else acc) (a0, b0) =
    (((cols.filter (fun c => isJudgeName c)).getLast?).or a0,
     ((cols.filter (fun c => !isJudgeName c && isBeerName c)).getLast?).or b0)
  | [], a0, b0 => rfl
  | c :: cs, a0, b0 => by
    rw [List.foldl_cons]
    by_cases hj : isJudgeName c
    · rw [if_pos hj, foldl_lastMatch cs (some c) b0]
      have h1 : (c :: cs).filter (fun c => isJudgeName c) =
          c :: cs.filter (fun c => isJudgeName c) := by
        simp [List.filter_cons, hj]
      have h2 : (c :: cs).filter (fun c => !isJudgeName c && isBeerName c) =
          cs.filter (fun c => !isJudgeName c && isBeerName c) := by
        simp [List.filter_cons, hj]
      rw [h1, h2, getLast?_cons_or, Option.or_assoc]
      simp
    · have hjf : isJudgeName c = false := Bool.not_eq_true _ ▸ eq_false_of_ne_true hj
      rw [if_neg hj]
      by_cases hb : isBeerName c
      · rw [if_pos hb, foldl_lastMatch cs a0 (some c)]
        have h1 : (c :: cs).filter (fun c => isJudgeName c) =
            cs.filter (fun c => isJudgeName c) := by
          simp [List.filter_cons, hjf]
        have h2 : (c :: cs).filter (fun c => !isJudgeName c && isBeerName c) =
            c :: cs.filter (fun c => !isJudgeName c && isBeerName c) := by
          simp [List.filter_cons, hjf, hb]
        rw [h1, h2, getLast?_cons_or, Option.or_assoc]
        simp
      · have hbf : isBeerName c = false := Bool.not_eq_true _ ▸ eq_false_of_ne_true hb
        rw [if_neg hb, foldl_lastMatch cs a0 b0]
        have h1 : (c :: cs).filter (fun c => isJudgeName c) =
            cs.filter (fun c => isJudgeName c) := by
          simp [List.filter_cons, hjf]
        have h2 : (c :: cs).filter (fun c => !isJudgeName c && isBeerName c) =
            cs.filter (fun c => !isJudgeName c && isBeerName c) := by
          simp [List.filter_cons, hbf]
        rw [h1, h2]

/-- On a numeric-or-null list of cells, the non-null cells are exactly the
numeric ones. -/
theorem count_eq_nums : ∀ (cells : List Value),
    (∀ v ∈ cells, v = Value.null ∨ (toNumQ v).isSome = true) →
    (cells.filter (fun v => v ≠ Value.null)).length =
      (cells.filterMap toNumQ).length
  | [], _ => rfl
  | v :: vs, h => by
    have hv := h v (List.mem_cons_self _ _)
    have ih := count_eq_nums vs (fun w hw => h w (List.mem_cons_of_mem _ hw))
    cases v with
    | null => simpa [List.filter_cons, List.filterMap_cons, toNumQ] using ih
    | num q => simpa [List.filter_cons, List.filterMap_cons, toNumQ] using ih
    | str s =>
      rcases hv with h' | h'
      · exact absurd h' (by simp)
      · exact absurd h' (by simp [toNumQ])

theorem zip_coerceRow : ∀ (cols : List String) (r : List Value),
    cols.zip (coerceRow cols r) =
      (cols.zip r).map
        (fun p => (p.1, if isRatingName p.1 then toNumericVal p.2 else p.2))
  | [], r => by simp [coerceRow]
  | c :: cs, [] => by simp [coerceRow]
  | c :: cs, v :: vs => by
    have ih := zip_coerceRow cs vs
    simp only [coerceRow, List.zip_cons_cons, List.map_cons] at *
    rw [ih]

theorem cellOf_coerceRow (cols : List String) (r : List Value) (c : String) :
    cellOf cols (coerceRow cols r) c =
      if isRatingName c then toNumericVal (cellOf cols r c)
      else cellOf cols r c := by
  unfold cellOf
  rw [zip_coerceRow, List.find?_map]
  have hcomp : ((fun q : String × Value => q.1 == c) ∘
      (fun p : String × Value =>
        (p.1, if isRatingName p.1 then toNumericVal p.2 else p.2))) =
      (fun p : String × Value => p.1 == c) := rfl
  rw [hcomp]
  cases hf : (cols.zip r).find? (fun p => p.1 == c) with
  | none =>
    simp only [Option.map_none']
    split <;> rfl
  | some p =>
    have hpc : p.1 = c := by
      have := List.find?_some hf
      simpa using this
    simp only [Option.map_some']
    rw [hpc]

theorem keepRow_iff (cols : List String) (r : List Value) :
    keepRow cols r = true ↔
      ∀ p ∈ cols.zip r, isEssentialName p.1 = true → p.2 ≠ Value.null := by
  unfold keepRow
  rw [List.all_eq_true]
  constructor
  · intro h p hp he hnull
    have := h p hp
    rw [he, hnull] at this
    simp at this
  · intro h p hp
    by_cases he : isEssentialName p.1
    · have := h p hp he
      simp [he, this]
    · simp [he]

/-- Characterisation of a successful `compute_judge_statistics` call. -/
theorem compute_judge_statistics_ok {t : Table} {stats : List (Value × JudgeStats)}
    (h : compute_judge_statistics t = Res.ok stats) :
    ∃ jc, t.cols.find? isJudgeName = some jc ∧
      stats.map Prod.fst = dedupFirst (colValues t jc) ∧
      ∀ p ∈ stats, judgeStatsOf (judgeFlatRatings t jc p.1) = some p.2 := by
  unfold compute_judge_statistics at h
  split at h
  · exact absurd h (by simp)
  · rename_i jc hjc
    split at h
    · rename_i l hall
      have hl : l = stats := by
        cases h
        rfl
      subst hl
      have hf := allSome_forall₂ hall
      have hf2 : List.Forall₂ (fun j p =>
          (judgeStatsOf (judgeFlatRatings t jc j)).map (fun s => (j, s)) = some p)
          (dedupFirst (colValues t jc)) l := List.forall₂_map_left_iff.mp hf
      refine ⟨jc, hjc, forall₂_map_fst hf2, ?_⟩
      intro p hp
      obtain ⟨j, _, hj⟩ := forall₂_mem_right hf2 p hp
      obtain ⟨s, hs, hps⟩ := Option.map_eq_some'.mp hj
      rw [← hps] at *
      exact hs
    · exact absurd h (by simp)

/-! ### Concrete tables used as witnesses and counterexamples -/

/-- A raw table whose only rating cell holds non-numeric text. -/
def tblNonNum : Table :=
  ⟨["Judge", "Taste Score"], [[Value.str "J1", Value.str "great"]]⟩

/-- A table with two judge-keyword columns (`Reviewer` first, `Judge`
second) holding different values. -/
def tblTwoJudgeCols : Table :=
  ⟨["Reviewer", "Judge", "Beer", "Taste Score"],
   [[Value.str "R1", Value.str "J1", Value.str "B1", Value.num 4]]⟩

/-- The worked scenario of the specification: judges J1, J2, beers B1, B2,
one rating column. -/
def tblScenario : Table :=
  ⟨["Judge", "Beer", "Aroma (1-5)"],
   [[Value.str "J1", Value.str "B1", Value.num 4],
    [Value.str "J1", Value.str "B2", Value.num 2],
    [Value.str "J2", Value.str "B1", Value.num 5],
    [Value.str "J2", Value.str "B2", Value.num 1]]⟩

/-- A table where judge J1 gives the same mean to both shared beers. -/
def tblConstJudge : Table :=
  ⟨["Judge", "Beer", "Taste Score"],
   [[Value.str "J1", Value.str "B1", Value.num 3],
    [Value.str "J1", Value.str "B2", Value.num 3],
    [Value.str "J2", Value.str "B1", Value.num 4],
    [Value.str "J2", Value.str "B2", Value.num 5]]⟩

/-- A table with a beer identifier column, one beer, and only null rating
cells. -/
def tblAllNullBeer : Table :=
  ⟨["Beer", "Taste Score"], [[Value.str "B1", Value.null]]⟩

/-- Three judges with mean ratings 1, 3 and 5. -/
def tblSpread : Table :=
  ⟨["Judge", "Beer", "Taste Score"],
   [[Value.str "J1", Value.str "B1", Value.num 1],
    [Value.str "J2", Value.str "B1", Value.num 3],
    [Value.str "J3", Value.str "B1", Value.num 5]]⟩

/-! ### Claim theorems -/

/-- Claim C1, counterexample.  On a table whose columns are
`["Reviewer", "Judge", "Beer", "Taste Score"]`, the first column matching
the judge keywords is `Reviewer` (holding value `R1`), yet
`analyze_judge_preferences` groups judges by the `Judge` column (its
result is keyed by `J1`): the selection is not the first-match selection
of `compute_beer_averages`, refuting the claim. -/
theorem c1_first_match_counterexample :
    tblTwoJudgeCols.cols.find? isJudgeName = some "Reviewer" ∧
    colValues tblTwoJudgeCols "Reviewer" = [Value.str "R1"] ∧
    (analyze_judge_preferences tblTwoJudgeCols).map (fun l => l.map Prod.fst) =
      some [Value.str "J1"] ∧
    Value.str "J1" ≠ Value.str "R1" := by
  refine ⟨by decide, by decide, by decide, by decide⟩

/-- Claim C1, amended.  The column-selection loop shared by
`analyze_judge_preferences` and `find_judge_agreements_disagreements`
(`lastMatchCols`, which both definitions use) selects the LAST column
matching the judge keywords, and the LAST column matching the beer
keywords among the columns not matching the judge keywords — not the
first-match selection that `compute_beer_averages` and
`compute_judge_statistics` perform via their early-`break` loops
(`List.find?`). -/
theorem c1_last_match_amended (cols : List String) :
    lastMatchCols cols =
      ((cols.filter (fun c => isJudgeName c)).getLast?,
       (cols.filter (fun c => !isJudgeName c && isBeerName c)).getLast?) := by
  unfold lastMatchCols
  rw [foldl_lastMatch]
  simp

/-- Claim C2, failing-input evaluation.  Cleaning a table whose only
rating cell is the non-numeric string `"great"` keeps the row with a null
rating; `compute_judge_statistics` on the cleaned table then reaches
`np.max` of an empty array and raises (`Res.err`) instead of returning a
result or an absent-value signal. -/
theorem c2_crash_on_allnull_judge :
    (clean_ratings tblNonNum).1 =
      ⟨["Judge", "Taste Score"], [[Value.str "J1", Value.null]]⟩ ∧
    compute_judge_statistics (clean_ratings tblNonNum).1 = Res.err := by
  refine ⟨by decide, by decide⟩

/-- Claim C4.  `clean_ratings` drops exactly the rows with a null in an
essential column and only then coerces the rating columns: a row with no
null essential cell survives (coerced), and a non-numeric string in one of
its rating cells becomes null rather than dropping the row. -/
theorem c4_drop_before_coerce (t : Table) (r : List Value)
    (hr : r ∈ t.rows)
    (hnn : ∀ p ∈ t.cols.zip r, isEssentialName p.1 = true → p.2 ≠ Value.null) :
    (clean_ratings t).1.rows =
      (t.rows.filter (keepRow t.cols)).map (coerceRow t.cols) ∧
    coerceRow t.cols r ∈ (clean_ratings t).1.rows ∧
    ∀ c s, isRatingName c = true → cellOf t.cols r c = Value.str s →
      parseNum s = none →
      cellOf t.cols (coerceRow t.cols r) c = Value.null := by
  refine ⟨rfl, ?_, ?_⟩
  · show coerceRow t.cols r ∈ (t.rows.filter (keepRow t.cols)).map (coerceRow t.cols)
    exact List.mem_map_of_mem _
      (List.mem_filter.mpr ⟨hr, (keepRow_iff _ _).mpr hnn⟩)
  · intro c s hc hcell hparse
    rw [cellOf_coerceRow, if_pos hc, hcell]
    simp [toNumericVal, hparse]

/-- Claim C4, witness: the row `[J1, "great"]` has no null essential cell,
and after cleaning its rating cell is null while the row is retained. -/
theorem c4_witness :
    ((∀ p ∈ tblNonNum.cols.zip [Value.str "J1", Value.str "great"],
        isEssentialName p.1 = true → p.2 ≠ Value.null) ∧
      cellOf tblNonNum.cols
        (coerceRow tblNonNum.cols [Value.str "J1", Value.str "great"])
        "Taste Score" = Value.null) :=
  ⟨by decide,
    (c4_drop_before_coerce tblNonNum [Value.str "J1", Value.str "great"]
      (by decide) (by decide)).2.2 "Taste Score" "great"
      (by decide) (by decide) (by decide)⟩

/-- Claim C8.  On a table whose rows are full-width, whose rating cells
are already numeric and whose essential cells are non-null,
`clean_ratings` returns the table unchanged and reports zero dropped
rows. -/
theorem c8_clean_noop (t : Table)
    (hlen : ∀ r ∈ t.rows, r.length = t.cols.length)
    (hnum : ∀ r ∈ t.rows, ∀ p ∈ t.cols.zip r, isRatingName p.1 = true →
      (toNumQ p.2).isSome = true)
    (hnn : ∀ r ∈ t.rows, ∀ p ∈ t.cols.zip r, isEssentialName p.1 = true →
      p.2 ≠ Value.null) :
    clean_ratings t = (t, 0) := by
  unfold clean_ratings
  have hfilter : t.rows.filter (keepRow t.cols) = t.rows :=
    List.filter_eq_self.mpr (fun r hr => (keepRow_iff _ _).mpr (hnn r hr))
  rw [hfilter]
  have hmap : t.rows.map (coerceRow t.cols) = t.rows := by
    conv_rhs => rw [← List.map_id t.rows]
    apply List.map_congr_left
    intro r hr
    have h1 : coerceRow t.cols r = (t.cols.zip r).map Prod.snd := by
      unfold coerceRow
      apply List.map_congr_left
      intro p hp
      by_cases hrp : isRatingName p.1
      · have := hnum r hr p hp hrp
        cases hp2 : p.2 with
        | num q => simp [hrp, toNumericVal]
        | null => rw [hp2] at this; simp [toNumQ] at this
        | str s => rw [hp2] at this; simp [toNumQ] at this
      · simp [hrp]
    rw [h1, List.map_snd_zip _ _ (le_of_eq (hlen r hr))]
    rfl
  show ((⟨t.cols, t.rows.map (coerceRow t.cols)⟩ : Table),
    t.rows.length - t.rows.length) = (t, 0)
  rw [hmap]
  simp

/-- Claim C8, witness: the scenario table is already clean and cleaning it
is a no-op. -/
theorem c8_witness :
    ((∀ r ∈ tblScenario.rows, r.length = tblScenario.cols.length) ∧
      clean_ratings tblScenario = (tblScenario, 0)) :=
  ⟨by decide,
    c8_clean_noop tblScenario (by decide) (by decide) (by decide)⟩

/-- Claim C7.  On a table whose rating columns hold only numeric-or-null
cells (the dtype cleaning produces), `compute_basic_statistics` reports,
for every rating column, a count equal to the number of non-null values
of that column and a mean equal to the arithmetic mean of exactly those
values (nulls ignored). -/
theorem c7_basic_stats (t : Table) (m : List (String × ColStats))
    (hnum : ∀ c ∈ t.cols, isRatingName c = true →
      ∀ v ∈ colValues t c, v = Value.null ∨ (toNumQ v).isSome = true)
    (h : compute_basic_statistics t = some m) :
    ∀ p ∈ m, p.2.count = ((colValues t p.1).filterMap toNumQ).length ∧
      (0 < p.2.count →
        p.2.mean =
          some (((colValues t p.1).filterMap toNumQ).sum / (p.2.count : ℚ))) := by
  unfold compute_basic_statistics at h
  split at h
  · exact absurd h (by simp)
  · have hm := Option.some_inj.mp h
    intro p hp
    rw [← hm] at hp
    obtain ⟨c, hc, hpc⟩ := List.mem_map.mp hp
    have hcm := List.mem_filter.mp hc
    have hnums := hnum c hcm.1 hcm.2
    subst hpc
    have hcount : (seriesStats (colValues t c)).count =
        ((colValues t c).filterMap toNumQ).length :=
      count_eq_nums (colValues t c) hnums
    refine ⟨hcount, fun hpos => ?_⟩
    rw [hcount] at hpos
    cases hxe : (colValues t c).filterMap toNumQ with
    | nil => rw [hxe] at hpos; simp at hpos
    | cons a l =>
      show (if ((colValues t c).filterMap toNumQ).isEmpty then none
          else some (listMean ((colValues t c).filterMap toNumQ))) = _
      rw [hcount, hxe]
      rfl

/-- Claim C7, witness: on the scenario table the statistics mapping exists
and satisfies the count and mean properties. -/
theorem c7_witness :
    ((∀ c ∈ tblScenario.cols, isRatingName c = true →
        ∀ v ∈ colValues tblScenario c, v = Value.null ∨ (toNumQ v).isSome = true) ∧
      ∃ m, compute_basic_statistics tblScenario = some m ∧
        ∀ p ∈ m, p.2.count = ((colValues tblScenario p.1).filterMap toNumQ).length ∧
          (0 < p.2.count →
            p.2.mean = some (((colValues tblScenario p.1).filterMap toNumQ).sum /
              (p.2.count : ℚ)))) :=
  ⟨by decide, ⟨_, rfl, c7_basic_stats tblScenario _ (by decide) rfl⟩⟩

/-- Claim C5.  When judge statistics exist, the harsh/lenient
classification uses as baseline the unweighted mean of the per-judge mean
ratings; a judge is in the harsh list iff their mean is below baseline
minus 1/2 and in the lenient list iff above baseline plus 1/2; no judge is
in both lists; the harsh list is sorted ascending by mean, the lenient
list descending. -/
theorem c5_harsh_lenient (t : Table) (stats : List (Value × JudgeStats))
    (h : compute_judge_statistics t = Res.ok stats) :
    ∃ r, identify_harsh_lenient_judges t = Res.ok r ∧
      r.overall_average = listMean (stats.map (fun p => p.2.mean_rating)) ∧
      (∀ p ∈ stats, ((p.1, p.2.mean_rating) ∈ r.harsh_judges ↔
        p.2.mean_rating < r.overall_average - 1/2)) ∧
      (∀ p ∈ stats, ((p.1, p.2.mean_rating) ∈ r.lenient_judges ↔
        r.overall_average + 1/2 < p.2.mean_rating)) ∧
      (∀ j m m', (j, m) ∈ r.harsh_judges → (j, m') ∈ r.lenient_judges → False) ∧
      List.Pairwise (fun a b : Value × ℚ => a.2 ≤ b.2) r.harsh_judges ∧
      List.Pairwise (fun a b : Value × ℚ => b.2 ≤ a.2) r.lenient_judges := by
  obtain ⟨jc, hjc, hkeys, hstats⟩ := compute_judge_statistics_ok h
  have hnodup : (stats.map Prod.fst).Nodup := hkeys ▸ nodup_dedupFirst _
  unfold identify_harsh_lenient_judges
  rw [h]
  refine ⟨_, rfl, rfl, ?_, ?_, ?_, ?_, ?_⟩
  · intro p hp
    constructor
    · intro hmem
      rw [List.mem_insertionSort] at hmem
      obtain ⟨q, _, hfq⟩ := List.mem_filterMap.mp hmem
      by_cases hcq : q.2.mean_rating <
          listMean (stats.map (fun p => p.2.mean_rating)) - 1/2
      · rw [if_pos hcq] at hfq
        have heq := Option.some_inj.mp hfq
        have h2 : q.2.mean_rating = p.2.mean_rating := congrArg Prod.snd heq
        rw [← h2]
        exact hcq
      · rw [if_neg hcq] at hfq
        exact absurd hfq (by simp)
    · intro hcp
      rw [List.mem_insertionSort]
      exact List.mem_filterMap.mpr ⟨p, hp, by rw [if_pos hcp]⟩
  · intro p hp
    constructor
    · intro hmem
      rw [List.mem_insertionSort] at hmem
      obtain ⟨q, _, hfq⟩ := List.mem_filterMap.mp hmem
      by_cases hcq : listMean (stats.map (fun p => p.2.mean_rating)) + 1/2 <
          q.2.mean_rating
      · rw [if_pos hcq] at hfq
        have heq := Option.some_inj.mp hfq
        have h2 : q.2.mean_rating = p.2.mean_rating := congrArg Prod.snd heq
        rw [← h2]
        exact hcq
      · rw [if_neg hcq] at hfq
        exact absurd hfq (by simp)
    · intro hcp
      rw [List.mem_insertionSort]
      exact List.mem_filterMap.mpr ⟨p, hp, by rw [if_pos hcp]⟩
  · intro j m m' hmh hml
    rw [List.mem_insertionSort] at hmh hml
    obtain ⟨q, hq, hfq⟩ := List.mem_filterMap.mp hmh
    obtain ⟨q', hq', hfq'⟩ := List.mem_filterMap.mp hml
    by_cases hcq : q.2.mean_rating <
        listMean (stats.map (fun p => p.2.mean_rating)) - 1/2
    · rw [if_pos hcq] at hfq
      by_cases hcq' : listMean (stats.map (fun p => p.2.mean_rating)) + 1/2 <
          q'.2.mean_rating
      · rw [if_pos hcq'] at hfq'
        have heq := Option.some_inj.mp hfq
        have heq' := Option.some_inj.mp hfq'
        have hj : q.1 = q'.1 := by
          rw [congrArg Prod.fst heq, congrArg Prod.fst heq']
        have hqq : q = q' := nodup_keys_entry_eq hnodup hq hq' hj
        rw [hqq] at hcq
        linarith
      · rw [if_neg hcq'] at hfq'
        exact absurd hfq' (by simp)
    · rw [if_neg hcq] at hfq
      exact absurd hfq (by simp)
  · exact @List.sorted_insertionSort (Value × ℚ) (fun a b => a.2 ≤ b.2)
      (fun a b => inferInstanceAs (Decidable (a.2 ≤ b.2)))
      ⟨fun a b => le_total a.2 b.2⟩ ⟨fun _ _ _ hab hbc => le_trans hab hbc⟩ _
  · exact @List.sorted_insertionSort (Value × ℚ) (fun a b => b.2 ≤ a.2)
      (fun a b => inferInstanceAs (Decidable (b.2 ≤ a.2)))
      ⟨fun a b => le_total b.2 a.2⟩ ⟨fun _ _ _ hab hbc => le_trans hbc hab⟩ _

/-- Claim C5, witness: on `tblSpread` (judge means 1, 3 and 5) the judge
statistics exist and the classification satisfies all the stated
properties. -/
theorem c5_witness :
    ∃ stats, compute_judge_statistics tblSpread = Res.ok stats ∧
      ∃ r, identify_harsh_lenient_judges tblSpread = Res.ok r ∧
        r.overall_average = listMean (stats.map (fun p => p.2.mean_rating)) ∧
        (∀ p ∈ stats, ((p.1, p.2.mean_rating) ∈ r.harsh_judges ↔
          p.2.mean_rating < r.overall_average - 1/2)) ∧
        (∀ p ∈ stats, ((p.1, p.2.mean_rating) ∈ r.lenient_judges ↔
          r.overall_average + 1/2 < p.2.mean_rating)) ∧
        (∀ j m m', (j, m) ∈ r.harsh_judges → (j, m') ∈ r.lenient_judges → False) ∧
        List.Pairwise (fun a b : Value × ℚ => a.2 ≤ b.2) r.harsh_judges ∧
        List.Pairwise (fun a b : Value × ℚ => b.2 ≤ a.2) r.lenient_judges :=
  ⟨_, rfl, c5_harsh_lenient tblSpread _ rfl⟩

/-- Claim C3, amended.  Every entry of the pairwise agreement result is
built from at least two per-common-beer mean pairs (pairs with fewer
points are omitted), and satisfies `sxy² ≤ sxx·syy` (Cauchy–Schwarz), so
its correlation `sxy/√(sxx·syy)` lies in [-1, 1] WHENEVER it is defined
(`sxx·syy ≠ 0`).  When one judge's per-beer means are constant the stored
correlation is NaN — the case that refutes the original claim. -/
theorem c3_agreements (t : Table) (l : List PairAgg)
    (h : find_judge_agreements_disagreements t = some l) :
    ∀ e ∈ l, 2 ≤ e.npoints ∧ e.sxy ^ 2 ≤ e.sxx * e.syy := by
  unfold find_judge_agreements_disagreements at h
  split at h
  · rename_i jc bc hlm
    split at h
    · exact absurd h (by simp)
    · have hm := Option.some_inj.mp h
      intro e he
      rw [← hm] at he
      obtain ⟨pr, _, hfe⟩ := List.mem_filterMap.mp he
      by_cases hlen : 1 < (pairPoints t jc bc pr.1 pr.2).length
      · rw [if_pos hlen] at hfe
        have he2 := Option.some_inj.mp hfe
        rw [← he2]
        exact ⟨hlen, sxy_sq_le _⟩
      · rw [if_neg hlen] at hfe
        exact absurd hfe (by simp)
  · exact absurd h (by simp)

/-- Claim C3, witness: on the scenario table the agreements mapping exists
and every entry has at least two data points and a dominated `sxy`. -/
theorem c3_witness :
    ∃ l, find_judge_agreements_disagreements tblScenario = some l ∧
      ∀ e ∈ l, 2 ≤ e.npoints ∧ e.sxy ^ 2 ≤ e.sxx * e.syy :=
  ⟨_, rfl, c3_agreements tblScenario _ rfl⟩

/-- The per-common-beer mean pairs of judges J1 and J2 on
`tblConstJudge`. -/
def ptsCE : List (ℚ × ℚ) :=
  pairPoints tblConstJudge "Judge" "Beer" (Value.str "J1") (Value.str "J2")

/-- Claim C3, counterexample.  On `tblConstJudge` judge J1 gives mean 3 to
both common beers, so the recorded entry has `sxx · syy = 0`: the
correlation `sxy/√(sxx·syy)` the source stores for this pair is NaN
(`np.corrcoef` divides by a zero standard deviation), not a number in
[-1, 1], and the pair nonetheless appears in the result. -/
theorem c3_counterexample :
    (find_judge_agreements_disagreements tblConstJudge =
      some [{ judge1 := Value.str "J1", judge2 := Value.str "J2",
              sxy := sxyOf ptsCE, sxx := sxxOf ptsCE, syy := syyOf ptsCE,
              npoints := ptsCE.length,
              common_count :=
                (commonBeers tblConstJudge "Judge" "Beer"
                  (Value.str "J1") (Value.str "J2")).length,
              agreement_level :=
                if corrGt (sxyOf ptsCE) (sxxOf ptsCE) (syyOf ptsCE) (7/10)
                then "High"
                else if corrGt (sxyOf ptsCE) (sxxOf ptsCE) (syyOf ptsCE) (3/10)
                then "Medium" else "Low" }]) ∧
    1 < ptsCE.length ∧
    sxxOf ptsCE * syyOf ptsCE = 0 := by
  have hshape : ptsCE = [(listMean [(3:ℚ)], listMean [(4:ℚ)]),
      (listMean [(3:ℚ)], listMean [(5:ℚ)])] := rfl
  refine ⟨rfl, by rw [hshape]; simp, ?_⟩
  rw [hshape]
  have h3 : listMean [(3:ℚ)] = 3 := by norm_num [listMean]
  have h4 : listMean [(4:ℚ)] = 4 := by norm_num [listMean]
  have h5 : listMean [(5:ℚ)] = 5 := by norm_num [listMean]
  rw [h3, h4, h5]
  norm_num [sxxOf, syyOf, listMean]

/-- Claim C6, amended.  Whenever the beer grouping exists, there is at
least one beer, and every beer has at least one defined per-column mean
(at least one non-null rating value; without this the source raises on an
all-NaN series), `find_best_worst_beers` succeeds, its best (worst) beer
is one of the beers carrying its overall scalar, the best scalar is ≥
every beer's scalar and the worst ≤ every beer's scalar, and with exactly
one beer best and worst coincide. -/
theorem c6_best_worst (t : Table) (groups : List (Value × List (String × AggCell)))
    (hg : compute_beer_averages t = some groups)
    (hne : groups ≠ [])
    (hdef : ∀ g ∈ groups, (overallScore g.2).isSome = true) :
    ∃ r, find_best_worst_beers t = Res.ok r ∧
      (∃ g ∈ groups, g.1 = r.best.1 ∧ overallScore g.2 = some r.best.2) ∧
      (∃ g ∈ groups, g.1 = r.worst.1 ∧ overallScore g.2 = some r.worst.2) ∧
      (∀ g ∈ groups, ∀ q, overallScore g.2 = some q →
        q ≤ r.best.2 ∧ r.worst.2 ≤ q) ∧
      (∀ g, groups = [g] → r.best = r.worst) := by
  cases hs : groups.filterMap
      (fun g => (overallScore g.2).map (fun q => (g.1, q))) with
  | nil =>
    exfalso
    obtain ⟨g0, hg0⟩ := List.exists_mem_of_ne_nil groups hne
    obtain ⟨q, hq⟩ := Option.isSome_iff_exists.mp (hdef g0 hg0)
    have hmem : (g0.1, q) ∈ groups.filterMap
        (fun g => (overallScore g.2).map (fun q => (g.1, q))) :=
      List.mem_filterMap.mpr ⟨g0, hg0, by rw [hq]; rfl⟩
    rw [hs] at hmem
    simp at hmem
  | cons p ps =>
    have hfind : find_best_worst_beers t =
        Res.ok { best := argmaxFirst p ps, worst := argminFirst p ps,
                 ranking := (p :: ps).insertionSort (fun a b => b.2 ≤ a.2) } := by
      unfold find_best_worst_beers
      rw [hg]
      show (match groups.filterMap
          (fun g => (overallScore g.2).map (fun q => (g.1, q))) with
        | [] => (Res.err : Res BestWorst)
        | p :: ps =>
          Res.ok (⟨argmaxFirst p ps, argminFirst p ps,
            (p :: ps).insertionSort (fun a b => b.2 ≤ a.2)⟩ : BestWorst)) = _
      rw [hs]
    obtain ⟨hmaxmem, hmaxle⟩ := argmaxFirst_spec p ps
    obtain ⟨hminmem, hminle⟩ := argminFirst_spec p ps
    refine ⟨_, hfind, ?_, ?_, ?_, ?_⟩
    · rw [← hs] at hmaxmem
      obtain ⟨g, hgmem, hfg⟩ := List.mem_filterMap.mp hmaxmem
      obtain ⟨q, hq, hpq⟩ := Option.map_eq_some'.mp hfg
      exact ⟨g, hgmem, by rw [← hpq], by rw [hq, ← hpq]⟩
    · rw [← hs] at hminmem
      obtain ⟨g, hgmem, hfg⟩ := List.mem_filterMap.mp hminmem
      obtain ⟨q, hq, hpq⟩ := Option.map_eq_some'.mp hfg
      exact ⟨g, hgmem, by rw [← hpq], by rw [hq, ← hpq]⟩
    · intro g hgmem q hq
      have hmem : (g.1, q) ∈ groups.filterMap
          (fun g => (overallScore g.2).map (fun q => (g.1, q))) :=
        List.mem_filterMap.mpr ⟨g, hgmem, by rw [hq]; rfl⟩
      rw [hs] at hmem
      exact ⟨hmaxle _ hmem, hminle _ hmem⟩
    · intro g hgg
      subst hgg
      obtain ⟨q, hq⟩ := Option.isSome_iff_exists.mp
        (hdef g (List.mem_cons_self g []))
      rw [List.filterMap_cons] at hs
      rw [hq] at hs
      simp only [Option.map_some', List.filterMap_nil] at hs
      have hp : p = (g.1, q) := by
        have := congrArg (fun l => l.headD (g.1, q)) hs
        simpa using this.symm
      have hps : ps = [] := by
        have := congrArg List.tail hs
        simpa using this.symm
      rw [hp, hps]
      rfl

/-- Claim C6, witness: on the scenario table (beers B1, B2 with defined
means) the best/worst computation succeeds with all stated properties. -/
theorem c6_witness :
    ∃ groups, compute_beer_averages tblScenario = some groups ∧
      groups ≠ [] ∧
      (∀ g ∈ groups, (overallScore g.2).isSome = true) ∧
      ∃ r, find_best_worst_beers tblScenario = Res.ok r ∧
        (∃ g ∈ groups, g.1 = r.best.1 ∧ overallScore g.2 = some r.best.2) ∧
        (∃ g ∈ groups, g.1 = r.worst.1 ∧ overallScore g.2 = some r.worst.2) ∧
        (∀ g ∈ groups, ∀ q, overallScore g.2 = some q →
          q ≤ r.best.2 ∧ r.worst.2 ≤ q) ∧
        (∀ g, groups = [g] → r.best = r.worst) :=
  ⟨_, rfl, by decide, by decide,
    c6_best_worst tblScenario _ rfl (by decide) (by decide)⟩

/-- Claim C6, counterexample.  `tblAllNullBeer` has a beer identifier
column and one beer, but that beer's only rating cell is null, so every
per-column mean is NaN and `find_best_worst_beers` raises (modelled
`Res.err`) instead of returning a best and worst beer. -/
theorem c6_counterexample :
    tblAllNullBeer.cols.find? isBeerName = some "Beer" ∧
    dedupFirst (colValues tblAllNullBeer "Beer") = [Value.str "B1"] ∧
    find_best_worst_beers tblAllNullBeer = Res.err := by
  refine ⟨by decide, by decide, by decide⟩

/-- The total number of non-null rating values one judge produced,
flattened across all rows and rating columns (the list the consistency
loop enumerates equals `judgeFlatRatings` by `consFlat_eq_judgeFlat`). -/
def judgeValueCount (t : Table) (jc : String) (j : Value) : Nat :=
  (judgeFlatRatings t jc j).length

/-- A judge with a non-empty flattened rating list forces a non-empty set
of rating columns. -/
theorem ratingFilter_ne_of_flat (t : Table) (jc : String) (j : Value)
    (h : judgeFlatRatings t jc j ≠ []) :
    (t.cols.filter isRatingName).isEmpty = false := by
  obtain ⟨x, hx⟩ := List.exists_mem_of_ne_nil _ h
  unfold judgeFlatRatings at hx
  obtain ⟨v, hv, _⟩ := List.mem_filterMap.mp hx
  obtain ⟨cells, hcells, hvc⟩ := List.mem_flatten.mp hv
  obtain ⟨r, _, hrc⟩ := List.mem_map.mp hcells
  rw [← hrc] at hvc
  obtain ⟨p, hp, hpv⟩ := List.mem_filterMap.mp hvc
  by_cases hrp : isRatingName p.1
  · obtain ⟨c, v'⟩ := p
    have hp1 : c ∈ t.cols := (List.of_mem_zip hp).1
    have hcf : c ∈ t.cols.filter isRatingName := List.mem_filter.mpr ⟨hp1, hrp⟩
    cases hfe : t.cols.filter isRatingName with
    | nil => rw [hfe] at hcf; simp at hcf
    | cons a l => rfl
  · rw [if_neg hrp] at hpv
    exact absurd hpv (by simp)

/-- Claim C9.  A judge with at most one non-null rating value never
appears in the consistency result nor in the generated profiles; a judge
with at least two values does appear in the consistency result. -/
theorem c9_consistency_threshold (t : Table) (jc : String) (j : Value)
    (hjc : t.cols.find? isJudgeName = some jc) :
    (judgeValueCount t jc j ≤ 1 →
      (∀ cl, analyze_judge_consistency t = some cl → ∀ c, (j, c) ∉ cl) ∧
      (∀ pl, generate_judge_profiles t = Res.ok pl → ∀ pr, (j, pr) ∉ pl)) ∧
    (2 ≤ judgeValueCount t jc j →
      ∃ cl c, analyze_judge_consistency t = some cl ∧ (j, c) ∈ cl) := by
  have hA : judgeValueCount t jc j ≤ 1 →
      ∀ cl, analyze_judge_consistency t = some cl → ∀ c, (j, c) ∉ cl := by
    intro hle cl hcl c hmem
    unfold analyze_judge_consistency at hcl
    split at hcl
    · exact absurd hcl (by simp)
    · rename_i jc' hjc'
      have hjq : jc' = jc := by
        rw [hjc] at hjc'
        exact (Option.some_inj.mp hjc').symm
      subst hjq
      split at hcl
      · exact absurd hcl (by simp)
      · have hm := Option.some_inj.mp hcl
        rw [← hm] at hmem
        obtain ⟨j', _, hfj⟩ := List.mem_filterMap.mp hmem
        unfold consEntry at hfj
        by_cases hlen : 1 < (judgeConsRatings t jc' j').length
        · rw [if_pos hlen] at hfj
          have heq := Option.some_inj.mp hfj
          have hj'j : j' = j := congrArg Prod.fst heq
          rw [hj'j, consFlat_eq_judgeFlat] at hlen
          unfold judgeValueCount at hle
          exact absurd hlen (by omega)
        · rw [if_neg hlen] at hfj
          exact absurd hfj (by simp)
  refine ⟨fun hle => ⟨hA hle, ?_⟩, ?_⟩
  · intro pl hpl pr hmem
    unfold generate_judge_profiles at hpl
    split at hpl
    · exact absurd hpl (by simp)
    · cases hpl
      simp at hmem
    · cases hpl
      simp at hmem
    · rename_i cs hcsne heqI heqC
      cases hpl
      obtain ⟨p, hp, hpeq⟩ := List.mem_map.mp hmem
      have hp1 : p.1 = j := congrArg Prod.fst hpeq
      have hpp : (p.1, p.2) ∈ cs := by
        rw [Prod.mk.eta]
        exact hp
      rw [hp1] at hpp
      exact hA hle cs heqC p.2 hpp
    · exact absurd hpl (by simp)
  · intro h2
    have hflat : judgeFlatRatings t jc j ≠ [] := by
      intro h0
      rw [judgeValueCount, h0] at h2
      simp at h2
    have hrc := ratingFilter_ne_of_flat t jc j hflat
    have hrows : rowsWhere t jc j ≠ [] := by
      intro h0
      apply hflat
      unfold judgeFlatRatings
      rw [h0]
      rfl
    obtain ⟨row, hrow⟩ := List.exists_mem_of_ne_nil _ hrows
    have hvm : vmatch (cellOf t.cols row jc) j = true :=
      (List.mem_filter.mp hrow).2
    have hcell : cellOf t.cols row jc = j := vmatch_eq hvm
    have hjcol : j ∈ colValues t jc := by
      rw [← hcell]
      exact List.mem_map_of_mem _ (List.mem_filter.mp hrow).1
    have hjmem : j ∈ dedupFirst (colValues t jc) := mem_dedupFirst.mpr hjcol
    have hlen : 1 < (judgeConsRatings t jc j).length := by
      rw [consFlat_eq_judgeFlat]
      exact h2
    unfold analyze_judge_consistency
    rw [hjc]
    show ∃ cl c, (if (t.cols.filter isRatingName).isEmpty then none
      else some ((dedupFirst (colValues t jc)).filterMap (consEntry t jc))) =
        some cl ∧ (j, c) ∈ cl
    rw [if_neg (by simp [hrc])]
    refine ⟨_, { varPop := listVarPop (judgeConsRatings t jc j)
                 num_ratings := (judgeConsRatings t jc j).length
                 avg_rating := listMean (judgeConsRatings t jc j)
                 rating_range := listMax (judgeConsRatings t jc j) -
                   listMin (judgeConsRatings t jc j) },
      rfl, List.mem_filterMap.mpr ⟨j, hjmem, ?_⟩⟩
    unfold consEntry
    rw [if_pos hlen]

/-- Claim C9, witness: on the scenario table judge J1 has two rating
values and the threshold properties hold. -/
theorem c9_witness :
    (tblScenario.cols.find? isJudgeName = some "Judge") ∧
    ((judgeValueCount tblScenario "Judge" (Value.str "J1") ≤ 1 →
      (∀ cl, analyze_judge_consistency tblScenario = some cl →
        ∀ c, (Value.str "J1", c) ∉ cl) ∧
      (∀ pl, generate_judge_profiles tblScenario = Res.ok pl →
        ∀ pr, (Value.str "J1", pr) ∉ pl)) ∧
    (2 ≤ judgeValueCount tblScenario "Judge" (Value.str "J1") →
      ∃ cl c, analyze_judge_consistency tblScenario = some cl ∧
        (Value.str "J1", c) ∈ cl)) :=
  ⟨by decide,
    c9_consistency_threshold tblScenario "Judge" (Value.str "J1") (by decide)⟩

/-- Claim C10.  For every judge with at least two rating values whose
statistics exist, the consistency analysis and the per-judge statistics
agree: same mean, same population variance (hence the same `np.std`),
same range and same count — both enumerate the same flattened list of
non-null rating cells. -/
theorem c10_consistency_matches_stats (t : Table)
    (stats : List (Value × JudgeStats)) (j : Value) (s : JudgeStats)
    (h : compute_judge_statistics t = Res.ok stats) (hj : (j, s) ∈ stats)
    (h2 : 2 ≤ s.num_ratings) :
    ∃ cl c, analyze_judge_consistency t = some cl ∧ (j, c) ∈ cl ∧
      c.avg_rating = s.mean_rating ∧ c.varPop = s.varPop ∧
      c.rating_range = s.rating_range ∧ c.num_ratings = s.num_ratings := by
  obtain ⟨jc, hjc, hkeys, hstats⟩ := compute_judge_statistics_ok h
  have hsj : judgeStatsOf (judgeFlatRatings t jc j) = some s := hstats (j, s) hj
  unfold judgeStatsOf at hsj
  split at hsj
  · exact absurd hsj (by simp)
  · have hs := Option.some_inj.mp hsj
    have hcount : s.num_ratings = (judgeFlatRatings t jc j).length := by
      rw [← hs]
    have hlen : 1 < (judgeConsRatings t jc j).length := by
      rw [consFlat_eq_judgeFlat, ← hcount]
      omega
    have hflatne : judgeFlatRatings t jc j ≠ [] := by
      intro h0
      rw [h0] at hcount
      rw [hcount] at h2
      simp at h2
    have hrc := ratingFilter_ne_of_flat t jc j hflatne
    have hjmem : j ∈ dedupFirst (colValues t jc) :=
      hkeys ▸ List.mem_map_of_mem Prod.fst hj
    unfold analyze_judge_consistency
    rw [hjc]
    show ∃ cl c, (if (t.cols.filter isRatingName).isEmpty then none
      else some ((dedupFirst (colValues t jc)).filterMap (consEntry t jc))) =
        some cl ∧ (j, c) ∈ cl ∧
      c.avg_rating = s.mean_rating ∧ c.varPop = s.varPop ∧
      c.rating_range = s.rating_range ∧ c.num_ratings = s.num_ratings
    rw [if_neg (by simp [hrc])]
    refine ⟨_, { varPop := listVarPop (judgeConsRatings t jc j)
                 num_ratings := (judgeConsRatings t jc j).length
                 avg_rating := listMean (judgeConsRatings t jc j)
                 rating_range := listMax (judgeConsRatings t jc j) -
                   listMin (judgeConsRatings t jc j) },
      rfl, List.mem_filterMap.mpr ⟨j, hjmem, ?_⟩, ?_, ?_, ?_, ?_⟩
    · unfold consEntry
      rw [if_pos hlen]
    · rw [consFlat_eq_judgeFlat, ← hs]
    · rw [consFlat_eq_judgeFlat, ← hs]
    · rw [consFlat_eq_judgeFlat, ← hs]
    · rw [consFlat_eq_judgeFlat, ← hs]

/-- Claim C10, witness: on the scenario table judge J1's statistics exist
with two rating values, and the consistency entry matches them. -/
theorem c10_witness :
    ∃ stats s, compute_judge_statistics tblScenario = Res.ok stats ∧
      (Value.str "J1", s) ∈ stats ∧ 2 ≤ s.num_ratings ∧
      ∃ cl c, analyze_judge_consistency tblScenario = some cl ∧
        (Value.str "J1", c) ∈ cl ∧
        c.avg_rating = s.mean_rating ∧ c.varPop = s.varPop ∧
        c.rating_range = s.rating_range ∧ c.num_ratings = s.num_ratings :=
  ⟨_, _, rfl, List.mem_cons_self _ _, by decide,
    c10_consistency_matches_stats tblScenario _ (Value.str "J1") _ rfl
      (List.mem_cons_self _ _) (by decide)⟩

end BW
